import Mathlib

/-!
Shallow embedding of `src/main.go` (a small Go network scanner) and
proofs about its core: IPv4 range generation (`generateIPs`, `inc`,
`bytes2int`), port-specification parsing (the port loop in `main`),
the TCP port probe (`scanPort`), the ICMP liveness probe (`pingHost`,
with network effects abstracted into an oracle environment), and the
scan coordinator loop of `main`.

Machine integers are modelled as `Nat` with explicit `% 2 ^ 32`
(resp. `% 256`) where Go's fixed-width overflow matters.  Network I/O
is abstracted into oracle parameters (`Option` outcomes: `none` models
a non-nil Go `error`).  The `for` loop of `generateIPs` is modelled
with explicit fuel: a `none` result means the loop did not finish
within the given fuel.
-/

/-- A parsed IPv4 address: the four octets of Go's 4-byte `net.IP`
slice (each octet is a Go `byte`, conceptually `< 256`). -/
structure IPv4 where
  o0 : Nat
  o1 : Nat
  o2 : Nat
  o3 : Nat
deriving DecidableEq

/-- All four octets are in byte range. -/
def IPv4.Valid (ip : IPv4) : Prop :=
  ip.o0 < 256 ∧ ip.o1 < 256 ∧ ip.o2 < 256 ∧ ip.o3 < 256

instance (ip : IPv4) : Decidable ip.Valid := by
  unfold IPv4.Valid; infer_instance

/-- Go `bytes2int`:
`uint32(b[0])<<24 | uint32(b[1])<<16 | uint32(b[2])<<8 | uint32(b[3])`. -/
def bytes2int (b : IPv4) : Nat :=
  b.o0 <<< 24 ||| b.o1 <<< 16 ||| b.o2 <<< 8 ||| b.o3

/-- Go `inc`: increment the 4-byte slice starting from the last octet;
`ip[j]++` wraps at 256 (Go `byte` overflow) and the loop carries into
the next octet while the incremented octet is zero.  The Go loop
`for j := len(ip)-1; j >= 0; j--` is unrolled for the four octets. -/
def inc (ip : IPv4) : IPv4 :=
  let n3 := (ip.o3 + 1) % 256
  if n3 > 0 then { ip with o3 := n3 }
  else
    let n2 := (ip.o2 + 1) % 256
    if n2 > 0 then { ip with o2 := n2, o3 := n3 }
    else
      let n1 := (ip.o1 + 1) % 256
      if n1 > 0 then { ip with o1 := n1, o2 := n2, o3 := n3 }
      else
        let n0 := (ip.o0 + 1) % 256
        { o0 := n0, o1 := n1, o2 := n2, o3 := n3 }

/-- The big-endian octets of a 32-bit value; specification-side inverse
of `bytes2int`. -/
def int2bytes (n : Nat) : IPv4 :=
  ⟨n / 2 ^ 24 % 256, n / 2 ^ 16 % 256, n / 2 ^ 8 % 256, n % 256⟩

theorem bytes2int_eq (ip : IPv4) (h : ip.Valid) :
    bytes2int ip = ((ip.o0 * 256 + ip.o1) * 256 + ip.o2) * 256 + ip.o3 := by
  obtain ⟨h0, h1, h2, h3⟩ := h
  have p8 : (2 : Nat) ^ 8 = 256 := by norm_num
  have p16 : (2 : Nat) ^ 16 = 65536 := by norm_num
  have p24 : (2 : Nat) ^ 24 = 16777216 := by norm_num
  unfold bytes2int
  rw [Nat.shiftLeft_eq, Nat.shiftLeft_eq, Nat.shiftLeft_eq,
    Nat.mul_comm ip.o0 (2 ^ 24),
    ← Nat.mul_add_lt_is_or (b := ip.o1 * 2 ^ 16) (by omega) ip.o0,
    show 2 ^ 24 * ip.o0 + ip.o1 * 2 ^ 16 = 2 ^ 16 * (ip.o0 * 256 + ip.o1) by ring,
    ← Nat.mul_add_lt_is_or (b := ip.o2 * 2 ^ 8) (by omega) _,
    show 2 ^ 16 * (ip.o0 * 256 + ip.o1) + ip.o2 * 2 ^ 8
        = 2 ^ 8 * ((ip.o0 * 256 + ip.o1) * 256 + ip.o2) by ring,
    ← Nat.mul_add_lt_is_or (b := ip.o3) (by omega) _]
  ring

theorem bytes2int_lt (ip : IPv4) (h : ip.Valid) : bytes2int ip < 2 ^ 32 := by
  obtain ⟨h0, h1, h2, h3⟩ := h
  rw [bytes2int_eq ip ⟨h0, h1, h2, h3⟩]
  have p32 : (2 : Nat) ^ 32 = 4294967296 := by norm_num
  omega

theorem inc_valid (ip : IPv4) (h : ip.Valid) : (inc ip).Valid := by
  obtain ⟨h0, h1, h2, h3⟩ := h
  simp only [inc]
  split
  · exact ⟨h0, h1, h2, by dsimp only; omega⟩
  · split
    · exact ⟨h0, h1, by dsimp only; omega, by dsimp only; omega⟩
    · split
      · exact ⟨h0, by dsimp only; omega, by dsimp only; omega, by dsimp only; omega⟩
      · exact ⟨by dsimp only; omega, by dsimp only; omega, by dsimp only; omega,
          by dsimp only; omega⟩

theorem int2bytes_valid (n : Nat) : (int2bytes n).Valid := by
  unfold int2bytes IPv4.Valid
  refine ⟨?_, ?_, ?_, ?_⟩ <;> simp <;> omega

theorem int2bytes_bytes2int (ip : IPv4) (h : ip.Valid) :
    int2bytes (bytes2int ip) = ip := by
  obtain ⟨h0, h1, h2, h3⟩ := h
  rw [bytes2int_eq ip ⟨h0, h1, h2, h3⟩]
  have p8 : (2 : Nat) ^ 8 = 256 := by norm_num
  have p16 : (2 : Nat) ^ 16 = 65536 := by norm_num
  have p24 : (2 : Nat) ^ 24 = 16777216 := by norm_num
  cases ip with
  | mk a b c d =>
    simp only [int2bytes, IPv4.mk.injEq] at *
    refine ⟨by omega, by omega, by omega, by omega⟩

theorem bytes2int_int2bytes (n : Nat) (h : n < 2 ^ 32) :
    bytes2int (int2bytes n) = n := by
  rw [bytes2int_eq _ (int2bytes_valid n)]
  have p8 : (2 : Nat) ^ 8 = 256 := by norm_num
  have p16 : (2 : Nat) ^ 16 = 65536 := by norm_num
  have p24 : (2 : Nat) ^ 24 = 16777216 := by norm_num
  have p32 : (2 : Nat) ^ 32 = 4294967296 := by norm_num
  simp only [int2bytes]
  omega

theorem bytes2int_inc (ip : IPv4) (h : ip.Valid) :
    bytes2int (inc ip) = (bytes2int ip + 1) % 2 ^ 32 := by
  obtain ⟨h0, h1, h2, h3⟩ := h
  have p32 : (2 : Nat) ^ 32 = 4294967296 := by norm_num
  by_cases c3 : ip.o3 = 255
  · by_cases c2 : ip.o2 = 255
    · by_cases c1 : ip.o1 = 255
      · have e : inc ip = ⟨(ip.o0 + 1) % 256, 0, 0, 0⟩ := by
          simp only [inc, c1, c2, c3]; norm_num
        rw [e, bytes2int_eq _ ⟨by dsimp only; omega, by dsimp only; omega,
            by dsimp only; omega, by dsimp only; omega⟩,
          bytes2int_eq ip ⟨h0, h1, h2, h3⟩]
        dsimp only
        simp only [c1, c2, c3]
        omega
      · have e : inc ip = ⟨ip.o0, (ip.o1 + 1) % 256, 0, 0⟩ := by
          simp only [inc, c2, c3]; norm_num
          intro hcon; omega
        rw [e, bytes2int_eq _ ⟨by dsimp only; omega, by dsimp only; omega,
            by dsimp only; omega, by dsimp only; omega⟩,
          bytes2int_eq ip ⟨h0, h1, h2, h3⟩]
        dsimp only
        simp only [c2, c3]
        omega
    · have e : inc ip = ⟨ip.o0, ip.o1, (ip.o2 + 1) % 256, 0⟩ := by
        simp only [inc, c3]; norm_num
        intro hcon; omega
      rw [e, bytes2int_eq _ ⟨by dsimp only; omega, by dsimp only; omega,
          by dsimp only; omega, by dsimp only; omega⟩,
        bytes2int_eq ip ⟨h0, h1, h2, h3⟩]
      dsimp only
      simp only [c3]
      omega
  · have e : inc ip = ⟨ip.o0, ip.o1, ip.o2, (ip.o3 + 1) % 256⟩ := by
      simp only [inc]
      rw [if_pos (by omega)]
    rw [e, bytes2int_eq _ ⟨by dsimp only; omega, by dsimp only; omega,
        by dsimp only; omega, by dsimp only; omega⟩,
      bytes2int_eq ip ⟨h0, h1, h2, h3⟩]
    dsimp only
    omega

/-- Go `strings.Split` with a one-character separator, over the
character list of the string: every occurrence of `c` separates a
(possibly empty) token; the result is never empty. -/
def splitOnChar (c : Char) : List Char → List (List Char)
  | [] => [[]]
  | x :: xs =>
    if x = c then [] :: splitOnChar c xs
    else
      match splitOnChar c xs with
      | [] => [[x]]
      | t :: ts => (x :: t) :: ts

/-- Decimal value of a digit string (the accumulator loop shared by
Go's `strconv.Atoi` and the stdlib dotted-decimal field parser). -/
def decVal (l : List Char) : Nat :=
  l.foldl (fun a c => a * 10 + (c.toNat - 48)) 0

/-- Modelled from the Go stdlib: one dotted-decimal field accepted by
`net.ParseIP` — nonempty, digits only, no leading zero, value at most
255. -/
def parseField (l : List Char) : Option Nat :=
  if l.isEmpty then none
  else if l.all Char.isDigit then
    if 1 < l.length ∧ l.headD ' ' = '0' then none
    else if decVal l ≤ 255 then some (decVal l) else none
  else none

/-- Modelled from the Go stdlib: `net.ParseIP(s).To4()` restricted to
dotted-decimal IPv4 literals `"a.b.c.d"` (the textual IPv6 forms that
`ParseIP` also accepts are outside the model); `none` models `nil`. -/
def parseIPv4 (s : String) : Option IPv4 :=
  match splitOnChar '.' s.toList with
  | [f0, f1, f2, f3] =>
    match parseField f0, parseField f1, parseField f2, parseField f3 with
    | some a, some b, some c, some d => some ⟨a, b, c, d⟩
    | _, _, _, _ => none
  | _ => none

/-- Decimal rendering of one byte value (Go's `uitoa`, as used by
`net.IP.String` per octet: no padding, no sign; a byte needs at most
three digits). -/
def decByte (n : Nat) : List Char :=
  if n < 10 then [Nat.digitChar n]
  else if n < 100 then [Nat.digitChar (n / 10), Nat.digitChar (n % 10)]
  else [Nat.digitChar (n / 100), Nat.digitChar (n / 10 % 10), Nat.digitChar (n % 10)]

/-- Go `net.IP.String()` on a 4-byte address: the dotted quad. -/
def ipString (ip : IPv4) : String :=
  String.mk (decByte ip.o0 ++ '.' ::
    (decByte ip.o1 ++ '.' :: (decByte ip.o2 ++ '.' :: decByte ip.o3)))

theorem digitChar_isDigit (d : Nat) (h : d < 10) :
    (Nat.digitChar d).isDigit = true := by
  interval_cases d <;> decide

theorem digitChar_toNat (d : Nat) (h : d < 10) :
    (Nat.digitChar d).toNat = 48 + d := by
  interval_cases d <;> decide

theorem digitChar_ne_zero (d : Nat) (h1 : 0 < d) (h2 : d < 10) :
    Nat.digitChar d ≠ '0' := by
  interval_cases d <;> decide

theorem decByte_ne_nil (n : Nat) : decByte n ≠ [] := by
  unfold decByte
  split
  · simp
  · split <;> simp

theorem decByte_digits (n : Nat) (h : n < 256) :
    (decByte n).all Char.isDigit = true := by
  unfold decByte
  split
  · simp only [List.all_cons, List.all_nil, Bool.and_true]
    exact digitChar_isDigit _ (by omega)
  · split
    · simp only [List.all_cons, List.all_nil, Bool.and_true, Bool.and_eq_true]
      exact ⟨digitChar_isDigit _ (by omega), digitChar_isDigit _ (by omega)⟩
    · simp only [List.all_cons, List.all_nil, Bool.and_true, Bool.and_eq_true]
      exact ⟨digitChar_isDigit _ (by omega), digitChar_isDigit _ (by omega),
        digitChar_isDigit _ (by omega)⟩

theorem not_mem_decByte (c : Char) (hc : c.isDigit = false) (n : Nat)
    (h : n < 256) : c ∉ decByte n := by
  intro hm
  have := List.all_eq_true.mp (decByte_digits n h) c hm
  rw [hc] at this
  exact Bool.false_ne_true this

theorem decVal_decByte (n : Nat) (h : n < 256) : decVal (decByte n) = n := by
  unfold decByte decVal
  split
  · simp only [List.foldl]
    rw [digitChar_toNat _ (by omega)]
    omega
  · split
    · simp only [List.foldl]
      rw [digitChar_toNat _ (by omega), digitChar_toNat _ (by omega)]
      omega
    · simp only [List.foldl]
      rw [digitChar_toNat _ (by omega), digitChar_toNat _ (by omega),
        digitChar_toNat _ (by omega)]
      omega

theorem decByte_no_leading_zero (n : Nat) (h : n < 256) :
    ¬(1 < (decByte n).length ∧ (decByte n).headD ' ' = '0') := by
  unfold decByte
  split
  · rintro ⟨hl, _⟩
    simp at hl
  · split
    · rintro ⟨_, hh⟩
      simp only [List.headD_cons] at hh
      exact digitChar_ne_zero (n / 10) (by omega) (by omega) hh
    · rintro ⟨_, hh⟩
      simp only [List.headD_cons] at hh
      exact digitChar_ne_zero (n / 100) (by omega) (by omega) hh

theorem parseField_decByte (n : Nat) (h : n < 256) :
    parseField (decByte n) = some n := by
  unfold parseField
  rw [if_neg (by simp [decByte_ne_nil n]), if_pos (decByte_digits n h),
    if_neg (decByte_no_leading_zero n h), if_pos (by rw [decVal_decByte n h]; omega),
    decVal_decByte n h]

theorem splitOnChar_of_not_mem (c : Char) (l : List Char) (h : c ∉ l) :
    splitOnChar c l = [l] := by
  induction l with
  | nil => rfl
  | cons x xs ih =>
    have hx : ¬(x = c) := fun he => h (he ▸ List.mem_cons_self x xs)
    simp only [splitOnChar, if_neg hx]
    rw [ih (fun hm => h (List.mem_cons_of_mem _ hm))]

theorem splitOnChar_append (c : Char) (l1 l2 : List Char) (h : c ∉ l1) :
    splitOnChar c (l1 ++ c :: l2) = l1 :: splitOnChar c l2 := by
  induction l1 with
  | nil => simp [splitOnChar]
  | cons x xs ih =>
    have hx : ¬(x = c) := fun he => h (he ▸ List.mem_cons_self x xs)
    simp only [List.cons_append, splitOnChar, if_neg hx]
    rw [show xs.append (c :: l2) = xs ++ c :: l2 from rfl,
      ih (fun hm => h (List.mem_cons_of_mem _ hm))]

theorem parseIPv4_ipString (ip : IPv4) (h : ip.Valid) :
    parseIPv4 (ipString ip) = some ip := by
  obtain ⟨h0, h1, h2, h3⟩ := h
  have hdot : ('.' : Char).isDigit = false := by decide
  unfold parseIPv4 ipString
  have ht : (String.mk (decByte ip.o0 ++ '.' ::
      (decByte ip.o1 ++ '.' :: (decByte ip.o2 ++ '.' :: decByte ip.o3)))).toList
      = decByte ip.o0 ++ '.' ::
        (decByte ip.o1 ++ '.' :: (decByte ip.o2 ++ '.' :: decByte ip.o3)) := rfl
  rw [ht, splitOnChar_append _ _ _ (not_mem_decByte _ hdot _ h0),
    splitOnChar_append _ _ _ (not_mem_decByte _ hdot _ h1),
    splitOnChar_append _ _ _ (not_mem_decByte _ hdot _ h2),
    splitOnChar_of_not_mem _ _ (not_mem_decByte _ hdot _ h3)]
  dsimp only
  rw [parseField_decByte _ h0, parseField_decByte _ h1,
    parseField_decByte _ h2, parseField_decByte _ h3]

theorem parseField_le (l : List Char) (n : Nat) (h : parseField l = some n) :
    n ≤ 255 := by
  unfold parseField at h
  split at h
  · exact absurd h (by simp)
  · split at h
    · split at h
      · exact absurd h (by simp)
      · split at h
        · rename_i hle
          injection h with h'
          omega
        · exact absurd h (by simp)
    · exact absurd h (by simp)

theorem parseIPv4_valid (s : String) (ip : IPv4) (h : parseIPv4 s = some ip) :
    ip.Valid := by
  unfold parseIPv4 at h
  split at h
  · split at h
    · rename_i a b c d ha hb hc hd
      injection h with h'
      subst h'
      exact ⟨Nat.lt_succ_of_le (parseField_le _ _ ha),
        Nat.lt_succ_of_le (parseField_le _ _ hb),
        Nat.lt_succ_of_le (parseField_le _ _ hc),
        Nat.lt_succ_of_le (parseField_le _ _ hd)⟩
    · exact absurd h (by simp)
  · exact absurd h (by simp)

/-- The loop of Go `generateIPs`
(`for ip := start; ip != nil && bytes2int(ip) <= bytes2int(end); inc(ip)`),
with explicit fuel; `ip != nil` is invariantly true (the slice is the
4-byte result of `To4` and `inc` mutates it in place), so only the
numeric guard is modelled.  Each iteration appends `ip.String()`.
`none` means the loop did not finish within `fuel` iterations. -/
def genLoop (endA : IPv4) : Nat → IPv4 → Option (List String)
  | 0, _ => none
  | fuel + 1, ip =>
    if bytes2int ip ≤ bytes2int endA then
      match genLoop endA fuel (inc ip) with
      | some rest => some (ipString ip :: rest)
      | none => none
    else
      some []

/-- Go `generateIPs`: parse both bounds with `net.ParseIP(...).To4()`,
return the error `"invalid IP address"` when either is `nil`, else run
the loop. -/
def generateIPs (fuel : Nat) (startIP endIP : String) :
    Option (Except String (List String)) :=
  match parseIPv4 startIP, parseIPv4 endIP with
  | some startA, some endA => (genLoop endA fuel startA).map Except.ok
  | _, _ => some (Except.error "invalid IP address")

theorem genLoop_zero (endA ip : IPv4) : genLoop endA 0 ip = none := rfl

theorem genLoop_succ (endA : IPv4) (fuel : Nat) (ip : IPv4) :
    genLoop endA (fuel + 1) ip =
      if bytes2int ip ≤ bytes2int endA then
        match genLoop endA fuel (inc ip) with
        | some rest => some (ipString ip :: rest)
        | none => none
      else
        some [] := rfl

theorem genLoop_eq (endA : IPv4) (he : endA.Valid)
    (hmax : bytes2int endA < 2 ^ 32 - 1) :
    ∀ (k fuel : Nat) (ip : IPv4), ip.Valid →
      bytes2int endA - bytes2int ip = k → bytes2int ip ≤ bytes2int endA →
      k + 2 ≤ fuel →
      genLoop endA fuel ip =
        some ((List.range' (bytes2int ip) (k + 1)).map
          (fun n => ipString (int2bytes n))) := by
  have p32 : (2 : Nat) ^ 32 = 4294967296 := by norm_num
  intro k
  induction k with
  | zero =>
    intro fuel ip hv hk hle hfuel
    obtain ⟨f1, rfl⟩ : ∃ f1, fuel = f1 + 1 := ⟨fuel - 1, by omega⟩
    have hlt : bytes2int ip < 2 ^ 32 := bytes2int_lt ip hv
    rw [genLoop_succ, if_pos hle]
    obtain ⟨f2, rfl⟩ : ∃ f2, f1 = f2 + 1 := ⟨f1 - 1, by omega⟩
    have hinc : bytes2int (inc ip) = bytes2int ip + 1 := by
      rw [bytes2int_inc ip hv]
      omega
    rw [genLoop_succ, if_neg (by omega)]
    simp [List.range'_one, int2bytes_bytes2int ip hv]
  | succ k ihk =>
    intro fuel ip hv hk hle hfuel
    obtain ⟨f1, rfl⟩ : ∃ f1, fuel = f1 + 1 := ⟨fuel - 1, by omega⟩
    have hlt : bytes2int ip < 2 ^ 32 := bytes2int_lt ip hv
    rw [genLoop_succ, if_pos hle]
    have hvinc : (inc ip).Valid := inc_valid ip hv
    have hinc : bytes2int (inc ip) = bytes2int ip + 1 := by
      rw [bytes2int_inc ip hv]
      omega
    rw [ihk f1 (inc ip) hvinc (by omega) (by omega) (by omega)]
    simp [hinc, int2bytes_bytes2int ip hv, List.range'_succ]

theorem genLoop_max_none (endA : IPv4) (hend : bytes2int endA = 2 ^ 32 - 1) :
    ∀ (fuel : Nat) (ip : IPv4), ip.Valid → genLoop endA fuel ip = none := by
  have p32 : (2 : Nat) ^ 32 = 4294967296 := by norm_num
  intro fuel
  induction fuel with
  | zero => intro ip _; rfl
  | succ f ih =>
    intro ip hv
    have := bytes2int_lt ip hv
    rw [genLoop_succ, if_pos (by omega), ih (inc ip) (inc_valid ip hv)]

/-- C1 (amended): for valid IPv4 bounds with `start ≤ end` and `end`
numerically below 255.255.255.255, `generateIPs` returns exactly
`end - start + 1` addresses whose numeric (32-bit) values are the
consecutive range `start, start+1, …, end` — strictly ascending, no
duplicates, no gaps.  (The claim's original quantification included
`end = 255.255.255.255`, where the loop never terminates; see the
counterexample.) -/
theorem generateIPs_range_asc (startS endS : String) (sa ea : IPv4)
    (hs : parseIPv4 startS = some sa) (he : parseIPv4 endS = some ea)
    (hle : bytes2int sa ≤ bytes2int ea) (hmax : bytes2int ea < 2 ^ 32 - 1) :
    ∃ fuel l, generateIPs fuel startS endS = some (Except.ok l) ∧
      l.length = bytes2int ea - bytes2int sa + 1 ∧
      l.map (fun a => (parseIPv4 a).map bytes2int)
        = (List.range' (bytes2int sa) (bytes2int ea - bytes2int sa + 1)).map
            some := by
  have hsv := parseIPv4_valid _ _ hs
  have hev := parseIPv4_valid _ _ he
  have p32 : (2 : Nat) ^ 32 = 4294967296 := by norm_num
  refine ⟨bytes2int ea - bytes2int sa + 2,
    (List.range' (bytes2int sa) (bytes2int ea - bytes2int sa + 1)).map
      (fun n => ipString (int2bytes n)), ?_, ?_, ?_⟩
  · simp only [generateIPs, hs, he]
    rw [genLoop_eq ea hev hmax (bytes2int ea - bytes2int sa)
      (bytes2int ea - bytes2int sa + 2) sa hsv rfl hle (Nat.le_refl _)]
    rfl
  · simp
  · rw [List.map_map]
    apply List.map_congr_left
    intro n hn
    rw [List.mem_range'] at hn
    obtain ⟨i, hi, rfl⟩ := hn
    have hn32 : bytes2int sa + 1 * i < 2 ^ 32 := by omega
    have hn32i : bytes2int sa + i < 2 ^ 32 := by omega
    simp only [Function.comp_apply]
    rw [parseIPv4_ipString _ (int2bytes_valid _)]
    simp [bytes2int_int2bytes _ hn32, bytes2int_int2bytes _ hn32i]

/-- C1 witness: the amended theorem at the concrete range
10.0.0.1 – 10.0.0.3. -/
theorem generateIPs_range_asc_witness :
    ∃ fuel l, generateIPs fuel "10.0.0.1" "10.0.0.3" = some (Except.ok l) ∧
      l.length = bytes2int ⟨10, 0, 0, 3⟩ - bytes2int ⟨10, 0, 0, 1⟩ + 1 ∧
      l.map (fun a => (parseIPv4 a).map bytes2int)
        = (List.range' (bytes2int ⟨10, 0, 0, 1⟩)
            (bytes2int ⟨10, 0, 0, 3⟩ - bytes2int ⟨10, 0, 0, 1⟩ + 1)).map some :=
  generateIPs_range_asc "10.0.0.1" "10.0.0.3" ⟨10, 0, 0, 1⟩ ⟨10, 0, 0, 3⟩
    rfl rfl (by decide) (by decide)

/-- C1 counterexample: for the valid pair
start = end = 255.255.255.255 (`start ≤ end`), `generateIPs` never
returns — `inc` wraps to 0.0.0.0, the guard stays true, and no amount
of fuel makes the loop finish — so the claim's unrestricted
quantification fails. -/
theorem generateIPs_max_end_counterexample :
    ¬ ∃ fuel l, generateIPs fuel "255.255.255.255" "255.255.255.255"
        = some (Except.ok l) := by
  rintro ⟨fuel, l, h⟩
  have hp : parseIPv4 "255.255.255.255" = some ⟨255, 255, 255, 255⟩ := rfl
  simp only [generateIPs, hp] at h
  rw [genLoop_max_none ⟨255, 255, 255, 255⟩ (by decide) fuel _ (by decide)] at h
  exact absurd h (by simp)

/-- C6: the range 10.0.0.254 – 10.0.1.1 yields exactly the four
addresses 10.0.0.254, 10.0.0.255, 10.0.1.0, 10.0.1.1 in that order:
the increment carries across the third octet boundary. -/
theorem generateIPs_octet_carry :
    generateIPs 6 "10.0.0.254" "10.0.1.1" =
      some (Except.ok ["10.0.0.254", "10.0.0.255", "10.0.1.0", "10.0.1.1"]) :=
  rfl

/-- C7: `generateIPs` fails with the error `"invalid IP address"` when
either input does not parse as IPv4, and returns an empty sequence
(without an error) when `start > end` numerically. -/
theorem generateIPs_error_policy :
    (∀ (fuel : Nat) (s e : String),
      parseIPv4 s = none ∨ parseIPv4 e = none →
      generateIPs fuel s e = some (Except.error "invalid IP address")) ∧
    (∀ (fuel : Nat) (s e : String) (sa ea : IPv4),
      parseIPv4 s = some sa → parseIPv4 e = some ea →
      bytes2int ea < bytes2int sa → 0 < fuel →
      generateIPs fuel s e = some (Except.ok [])) := by
  constructor
  · intro fuel s e h
    unfold generateIPs
    rcases h with h | h
    · rw [h]
    · rw [h]
      cases hps : parseIPv4 s <;> rfl
  · intro fuel s e sa ea hs he hlt hf
    simp only [generateIPs, hs, he]
    obtain ⟨f1, rfl⟩ : ∃ f1, fuel = f1 + 1 := ⟨fuel - 1, by omega⟩
    rw [genLoop_succ, if_neg (by omega)]
    rfl

/-- C7 witness: a non-IPv4 start string produces the error; a
descending pair produces the empty list without an error. -/
theorem generateIPs_error_policy_witness :
    generateIPs 1 "foo" "1.2.3.4" = some (Except.error "invalid IP address") ∧
    generateIPs 1 "1.2.3.4" "1.2.3.0" = some (Except.ok []) :=
  ⟨generateIPs_error_policy.1 1 "foo" "1.2.3.4" (Or.inl rfl),
   generateIPs_error_policy.2 1 "1.2.3.4" "1.2.3.0" ⟨1, 2, 3, 4⟩ ⟨1, 2, 3, 0⟩
     rfl rfl (by decide) (by decide)⟩

/-- C9: `generateIPs` terminates (some fuel makes the loop finish) for
every pair of valid IPv4 inputs whose end address is numerically below
255.255.255.255; `inc` wraps 255.255.255.255 to 0.0.0.0, and when the
end address is 255.255.255.255 the guard
`bytes2int(ip) <= bytes2int(end)` stays true forever: no fuel
suffices, i.e. `generateIPs` does not terminate. -/
theorem generateIPs_termination :
    (∀ (s e : String) (sa ea : IPv4),
      parseIPv4 s = some sa → parseIPv4 e = some ea →
      bytes2int ea < 2 ^ 32 - 1 →
      ∃ fuel res, generateIPs fuel s e = some res) ∧
    inc ⟨255, 255, 255, 255⟩ = ⟨0, 0, 0, 0⟩ ∧
    (∀ (fuel : Nat) (s e : String) (sa : IPv4),
      parseIPv4 s = some sa → parseIPv4 e = some ⟨255, 255, 255, 255⟩ →
      generateIPs fuel s e = none) := by
  refine ⟨?_, by decide, ?_⟩
  · intro s e sa ea hs he hmax
    have hsv := parseIPv4_valid _ _ hs
    have hev := parseIPv4_valid _ _ he
    by_cases hle : bytes2int sa ≤ bytes2int ea
    · refine ⟨bytes2int ea - bytes2int sa + 2, ?_⟩
      simp only [generateIPs, hs, he]
      rw [genLoop_eq ea hev hmax (bytes2int ea - bytes2int sa)
        (bytes2int ea - bytes2int sa + 2) sa hsv rfl hle (Nat.le_refl _)]
      exact ⟨_, rfl⟩
    · refine ⟨1, ?_⟩
      simp only [generateIPs, hs, he]
      rw [genLoop_succ, if_neg (by omega)]
      exact ⟨_, rfl⟩
  · intro fuel s e sa hs he
    simp only [generateIPs, hs, he]
    rw [genLoop_max_none ⟨255, 255, 255, 255⟩ (by decide) fuel sa
      (parseIPv4_valid _ _ hs)]
    rfl

/-- C9 witness: a small range terminates; with end 255.255.255.255 a
concrete fuel still yields no result. -/
theorem generateIPs_termination_witness :
    (∃ fuel res, generateIPs fuel "10.0.0.1" "10.0.0.2" = some res) ∧
    generateIPs 7 "10.0.0.1" "255.255.255.255" = none :=
  ⟨generateIPs_termination.1 "10.0.0.1" "10.0.0.2" ⟨10, 0, 0, 1⟩ ⟨10, 0, 0, 2⟩
     rfl rfl (by decide),
   generateIPs_termination.2.2 7 "10.0.0.1" "255.255.255.255" ⟨10, 0, 0, 1⟩
     rfl rfl⟩

/-- Go `strconv.Atoi` as used by `main` with the returned error
discarded (`startPort, _ := strconv.Atoi(...)`): an optional sign
followed by at least one digit yields the signed decimal value; on any
syntax error `Atoi` returns 0 and `main` uses that 0.  (`ParseInt`'s
clamp to the 64-bit range on overflow is not modelled; the claims only
involve small values.) -/
def atoi (l : List Char) : Int :=
  match l with
  | [] => 0
  | c :: ds =>
    if c = '+' then
      if ds.isEmpty ∨ ¬ds.all Char.isDigit then 0 else (decVal ds : Int)
    else if c = '-' then
      if ds.isEmpty ∨ ¬ds.all Char.isDigit then 0 else -(decVal ds : Int)
    else if (c :: ds).all Char.isDigit then (decVal (c :: ds) : Int) else 0

/-- The syntax accepted by Go `strconv.Atoi` (optional sign, one or
more digits); on anything else `Atoi` reports an error and returns
0. -/
def goIntSyntax (l : List Char) : Bool :=
  match l with
  | [] => false
  | c :: ds =>
    if c = '+' ∨ c = '-' then !ds.isEmpty && ds.all Char.isDigit
    else (c :: ds).all Char.isDigit

/-- The port loop of `main`
(`for i := startPort; i <= endPort; i++ { ports = append(ports, i) }`),
with its iteration count `(b + 1 - a).toNat` made explicit so that the
function is structurally recursive. -/
def portLoopN : Nat → Int → List Int
  | 0, _ => []
  | n + 1, a => a :: portLoopN n (a + 1)

def portLoop (a b : Int) : List Int :=
  portLoopN (b + 1 - a).toNat a

/-- The port-specification expansion of `main` on the already split
tokens: `Atoi` of the first token (errors discarded), `Atoi` of the
second token when present, then the inclusive loop. -/
def parsePortsTokens (parts : List (List Char)) : List Int :=
  let startPort := atoi (parts.headD [])
  let endPort := if 1 < parts.length then atoi (parts.getD 1 []) else startPort
  portLoop startPort endPort

/-- The port-specification parsing of `main`:
`strings.Split(portRange, "-")` followed by the expansion above. -/
def parsePorts (s : String) : List Int :=
  parsePortsTokens (splitOnChar '-' s.toList)

theorem portLoop_empty (a b : Int) (h : b < a) : portLoop a b = [] := by
  unfold portLoop
  have : (b + 1 - a).toNat = 0 := by omega
  rw [this]
  rfl

theorem atoi_invalid (l : List Char) (h : goIntSyntax l = false) : atoi l = 0 := by
  match l with
  | [] => rfl
  | c :: ds =>
    simp only [goIntSyntax] at h
    simp only [atoi]
    by_cases hp : c = '+'
    · rw [if_pos hp]
      rw [if_pos (by simp [hp])] at h
      rcases Bool.and_eq_false_iff.mp h with h' | h'
      · rw [if_pos (Or.inl (by simpa using h'))]
      · rw [if_pos (Or.inr (by simp [h']))]
    · rw [if_neg hp]
      by_cases hm : c = '-'
      · rw [if_pos hm]
        rw [if_pos (by simp [hm])] at h
        rcases Bool.and_eq_false_iff.mp h with h' | h'
        · rw [if_pos (Or.inl (by simpa using h'))]
        · rw [if_pos (Or.inr (by simp [h']))]
      · rw [if_neg hm]
        rw [if_neg (by simp [hp, hm])] at h
        rw [if_neg (by simp [h])]

/-- C2 (amended): the port-specification parsing in `main` never
fails: `strconv.Atoi` errors are discarded, so a non-numeric token
contributes the value 0; only the first two `'-'`-separated tokens are
used, extra tokens being ignored; and when the first token's value
exceeds the second's the loop produces an empty port list — in
particular `"22-20"` yields no ports rather than an `InvalidPortSpec`
error. -/
theorem parsePortsTokens_cons_cons (t0 t1 : List Char)
    (rest : List (List Char)) :
    parsePortsTokens (t0 :: t1 :: rest) = portLoop (atoi t0) (atoi t1) := by
  simp only [parsePortsTokens]
  rw [if_pos (by simp only [List.length_cons]; omega)]
  simp only [List.headD_cons, List.getD_cons_succ, List.getD_cons_zero]

theorem parsePorts_total_behavior :
    (∀ (t0 t1 : List Char) (rest : List (List Char)),
      parsePortsTokens (t0 :: t1 :: rest) = parsePortsTokens [t0, t1]) ∧
    (∀ (t0 t1 : List Char) (rest : List (List Char)),
      atoi t1 < atoi t0 → parsePortsTokens (t0 :: t1 :: rest) = []) ∧
    (∀ l : List Char, goIntSyntax l = false → atoi l = 0) ∧
    parsePorts "22-20" = [] := by
  refine ⟨?_, ?_, atoi_invalid, rfl⟩
  · intro t0 t1 rest
    rw [parsePortsTokens_cons_cons, parsePortsTokens_cons_cons]
  · intro t0 t1 rest h
    rw [parsePortsTokens_cons_cons]
    exact portLoop_empty _ _ h

/-- C2 witness: the amended theorem at concrete inputs — a descending
token pair (with a third token) yields no ports, and a non-numeric
token parses to 0. -/
theorem parsePorts_total_behavior_witness :
    parsePortsTokens [['2', '2'], ['2', '0'], ['9']] = [] ∧ atoi ['a'] = 0 :=
  ⟨parsePorts_total_behavior.2.1 ['2', '2'] ['2', '0'] [['9']] (by decide),
   parsePorts_total_behavior.2.2.1 ['a'] (by decide)⟩

/-- C2 counterexample: parsing does not fail on any of the inputs the
claim says must fail with `InvalidPortSpec` — `"22-20"` yields the
empty port list, the non-numeric `"abc"` yields `[0]`, and the
three-token `"1-2-3"` yields `[1, 2]`; the code has no error path at
all for port specifications. -/
theorem parsePorts_no_invalid_error :
    parsePorts "22-20" = [] ∧ parsePorts "abc" = [0] ∧
    parsePorts "1-2-3" = [1, 2] :=
  ⟨rfl, rfl, rfl⟩

/-- C8: valid port specifications expand to the ascending inclusive
sequence — `"80"` to `[80]`, `"20-22"` to `[20, 21, 22]` — and for
every numeric token `N` the single-token form `"N"` is equivalent to
the range form `"N-N"`. -/
theorem parsePorts_valid_forms :
    parsePorts "80" = [80] ∧ parsePorts "20-22" = [20, 21, 22] ∧
    (∀ ds : List Char, ds ≠ [] → ds.all Char.isDigit = true →
      parsePorts (String.mk (ds ++ '-' :: ds)) = parsePorts (String.mk ds)) := by
  refine ⟨rfl, rfl, ?_⟩
  intro ds hne hdig
  have hdash : '-' ∉ ds := fun hm => by
    have hd := List.all_eq_true.mp hdig _ hm
    exact absurd hd (by decide)
  unfold parsePorts
  rw [show (String.mk (ds ++ '-' :: ds)).toList = ds ++ '-' :: ds from rfl,
    show (String.mk ds).toList = ds from rfl,
    splitOnChar_append _ _ _ hdash, splitOnChar_of_not_mem _ _ hdash]
  rfl

/-- C8 witness: the `"N"`/`"N-N"` equivalence at `N = 9`. -/
theorem parsePorts_valid_forms_witness :
    parsePorts (String.mk (['9'] ++ '-' :: ['9'])) = parsePorts (String.mk ['9']) :=
  parsePorts_valid_forms.2.2 ['9'] (by decide) (by decide)

/-- Go `ScanResult`. -/
structure ScanResult where
  IP : String
  Port : Int
  Open : Bool
deriving DecidableEq

/-- Go `scanPort`: attempt `net.DialTimeout("tcp", ip:port, timeout)`,
abstracted as the oracle `dial` (`none` models a non-nil error of any
kind — timeout, refusal, or other connection failure; `some ()` models
a connection established before the timeout, which the Go code
immediately closes).  The zero-valued result starts with
`Open = false`; on error it is returned as is, on success `Open` is
set to true.  The function is total into `ScanResult`: no error
escapes. -/
def scanPort (dial : String → Int → Nat → Option Unit) (ip : String)
    (port : Int) (timeout : Nat) : ScanResult :=
  let result : ScanResult := { IP := ip, Port := port, Open := false }
  match dial ip port timeout with
  | none => result
  | some _ => { result with Open := true }

theorem scanPort_IP (dial : String → Int → Nat → Option Unit) (ip : String)
    (port : Int) (timeout : Nat) : (scanPort dial ip port timeout).IP = ip := by
  unfold scanPort
  cases dial ip port timeout <;> rfl

theorem scanPort_Port (dial : String → Int → Nat → Option Unit) (ip : String)
    (port : Int) (timeout : Nat) :
    (scanPort dial ip port timeout).Port = port := by
  unfold scanPort
  cases dial ip port timeout <;> rfl

/-- C4: for every host, port, timeout and dial outcome, `scanPort`
returns a `ScanResult` carrying exactly that host and port, with
`Open = true` iff the TCP connection was established before the
timeout and `Open = false` on timeout, refusal, or any other
connection failure; being total into `ScanResult`, it never
propagates a connection error to the caller. -/
theorem scanPort_folds_errors (dial : String → Int → Nat → Option Unit)
    (ip : String) (port : Int) (timeout : Nat) :
    scanPort dial ip port timeout =
      { IP := ip, Port := port, Open := (dial ip port timeout).isSome } := by
  unfold scanPort
  cases dial ip port timeout <;> rfl

/-- The scanning loop of Go `main`: hosts are probed for liveness
sequentially (`pingHost`, abstracted as the oracle `ping`); for each
live host one concurrent port-probe task per port is launched, and
each task sends exactly one `scanPort` result on the shared channel; a
dead host launches nothing.  The list below is the multiset of results
delivered to the channel, listed in dispatch order (arrival order
among the concurrent tasks is unspecified; the properties proved are
order-insensitive). -/
def coordinate (ping : String → Nat → Bool)
    (dial : String → Int → Nat → Option Unit)
    (ips : List String) (ports : List Int) (timeout : Nat) :
    List ScanResult :=
  match ips with
  | [] => []
  | ip :: rest =>
    if ping ip timeout then
      ports.map (fun port => scanPort dial ip port timeout)
        ++ coordinate ping dial rest ports timeout
    else
      coordinate ping dial rest ports timeout

theorem coordinate_ip_mem (ping : String → Nat → Bool)
    (dial : String → Int → Nat → Option Unit) (ips : List String)
    (ports : List Int) (timeout : Nat) (r : ScanResult)
    (hr : r ∈ coordinate ping dial ips ports timeout) : r.IP ∈ ips := by
  induction ips with
  | nil => exact absurd hr (by simp [coordinate])
  | cons ip rest ih =>
    simp only [coordinate] at hr
    split at hr
    · rcases List.mem_append.mp hr with h | h
      · obtain ⟨p, _, rfl⟩ := List.mem_map.mp h
        rw [scanPort_IP]
        exact List.mem_cons_self _ _
      · exact List.mem_cons_of_mem _ (ih h)
    · exact List.mem_cons_of_mem _ (ih hr)

theorem coordinate_filter_not_mem (ping : String → Nat → Bool)
    (dial : String → Int → Nat → Option Unit) (ips : List String)
    (ports : List Int) (timeout : Nat) (ip : String) (h : ip ∉ ips) :
    (coordinate ping dial ips ports timeout).filter
      (fun r => r.IP == ip) = [] := by
  apply List.filter_eq_nil_iff.mpr
  intro r hr hbeq
  have : r.IP = ip := by simpa using hbeq
  exact h (this ▸ coordinate_ip_mem ping dial ips ports timeout r hr)

theorem filter_scanPort_self (dial : String → Int → Nat → Option Unit)
    (ip : String) (timeout : Nat) (ports : List Int) :
    (ports.map (fun port => scanPort dial ip port timeout)).filter
        (fun r => r.IP == ip)
      = ports.map (fun port => scanPort dial ip port timeout) := by
  apply List.filter_eq_self.mpr
  intro r hr
  obtain ⟨p, _, rfl⟩ := List.mem_map.mp hr
  simp [scanPort_IP]

theorem filter_scanPort_other (dial : String → Int → Nat → Option Unit)
    (host ip : String) (timeout : Nat) (ports : List Int)
    (hne : host ≠ ip) :
    (ports.map (fun port => scanPort dial host port timeout)).filter
      (fun r => r.IP == ip) = [] := by
  apply List.filter_eq_nil_iff.mpr
  intro r hr hbeq
  obtain ⟨p, _, rfl⟩ := List.mem_map.mp hr
  rw [scanPort_IP] at hbeq
  exact hne (by simpa using hbeq)

/-- C3: for every host in a duplicate-free address list — if its
liveness probe returns false, no `ScanResult` is ever produced for any
of its ports; if it returns true, the results carrying that host are
exactly one `scanPort` result per port of the port set (so exactly
`|PortSet|` of them, no port probed twice, none skipped, and their
ports are precisely the port list). -/
theorem coordinate_per_host (ping : String → Nat → Bool)
    (dial : String → Int → Nat → Option Unit) (ips : List String)
    (ports : List Int) (timeout : Nat) (ip : String)
    (hmem : ip ∈ ips) (hnd : ips.Nodup) :
    (ping ip timeout = false →
      (coordinate ping dial ips ports timeout).filter
        (fun r => r.IP == ip) = []) ∧
    (ping ip timeout = true →
      (coordinate ping dial ips ports timeout).filter (fun r => r.IP == ip)
          = ports.map (fun port => scanPort dial ip port timeout) ∧
        ((coordinate ping dial ips ports timeout).filter
            (fun r => r.IP == ip)).length = ports.length ∧
        ((coordinate ping dial ips ports timeout).filter
            (fun r => r.IP == ip)).map (fun r => r.Port) = ports) := by
  induction ips with
  | nil => exact absurd hmem (List.not_mem_nil ip)
  | cons host rest ih =>
    rcases List.nodup_cons.mp hnd with ⟨hhost, hnd'⟩
    by_cases hip : host = ip
    · subst hip
      have hrest := coordinate_filter_not_mem ping dial rest ports timeout
        host hhost
      constructor
      · intro hpf
        simp only [coordinate]
        rw [if_neg (by rw [hpf]; simp), hrest]
      · intro hpt
        simp only [coordinate]
        rw [if_pos hpt, List.filter_append, filter_scanPort_self, hrest,
          List.append_nil]
        refine ⟨rfl, by simp, ?_⟩
        rw [List.map_map]
        exact List.map_id'' (fun p => scanPort_Port dial host p timeout) ports
    · have hmem' : ip ∈ rest := by
        rcases List.mem_cons.mp hmem with heq | hm
        · exact absurd heq.symm hip
        · exact hm
      obtain ⟨ihd, iha⟩ := ih hmem' hnd'
      constructor
      · intro hpf
        simp only [coordinate]
        split
        · rw [List.filter_append,
            filter_scanPort_other dial host ip timeout ports hip,
            List.nil_append]
          exact ihd hpf
        · exact ihd hpf
      · intro hpt
        simp only [coordinate]
        split
        · rw [List.filter_append,
            filter_scanPort_other dial host ip timeout ports hip,
            List.nil_append]
          exact iha hpt
        · exact iha hpt

/-- C3 witness: a two-host scan in which only 10.0.0.1 is alive — the
dead host 10.0.0.2 gets no results, the live host gets one result per
port. -/
theorem coordinate_per_host_witness :
    ((coordinate (fun s _ => s == "10.0.0.1") (fun _ _ _ => none)
        ["10.0.0.1", "10.0.0.2"] [80, 443] 5).filter
      (fun r => r.IP == "10.0.0.2") = []) ∧
    ((coordinate (fun s _ => s == "10.0.0.1") (fun _ _ _ => none)
        ["10.0.0.1", "10.0.0.2"] [80, 443] 5).filter
        (fun r => r.IP == "10.0.0.1")).map (fun r => r.Port) = [80, 443] :=
  ⟨(coordinate_per_host (fun s _ => s == "10.0.0.1") (fun _ _ _ => none)
      ["10.0.0.1", "10.0.0.2"] [80, 443] 5 "10.0.0.2"
      (by simp) (by simp)).1 rfl,
   ((coordinate_per_host (fun s _ => s == "10.0.0.1") (fun _ _ _ => none)
      ["10.0.0.1", "10.0.0.2"] [80, 443] 5 "10.0.0.1"
      (by simp) (by simp)).2 rfl).2.2⟩

/-- Oracle environment for one `pingHost` invocation: the outcome of
each network step of the Go code, in program order, with `none`
modelling a non-nil error.  `listen` is
`icmp.ListenPacket("ip4:icmp", "0.0.0.0")` (`none`: e.g. a raw-socket
privilege failure), `marshal` is `msg.Marshal(nil)`, `write` is
`c.WriteTo(msgBytes, dest)`, and `read` is the single
`c.ReadFrom(reply)` bounded by the read deadline — `some (bytes, src)`
is whichever ICMP packet arrives first (the code never inspects its
contents or source), `none` a read error or deadline expiry. -/
structure ICMPEnv where
  listen : Option Unit
  marshal : Option (List Nat)
  write : Option Unit
  read : Option (List Nat × String)

/-- Go `pingHost`: returns false on listener-creation error, marshal
error, or write error; otherwise returns `err == nil` of the single
`ReadFrom` — true exactly when some packet arrived before the
deadline.  The probed address and the timeout act only through the
oracle outcomes. -/
def pingHost (env : ICMPEnv) (ip : String) (timeout : Nat) : Bool :=
  match env.listen with
  | none => false
  | some _ =>
    match env.marshal with
    | none => false
    | some _ =>
      match env.write with
      | none => false
      | some _ =>
        match env.read with
        | none => false
        | some _ => true

/-- C5 counterexample: a malformed reply is not folded into liveness
`false` — a garbage one-byte packet from an unrelated source arriving
before the deadline makes `pingHost` return true, because the code
returns `err == nil` of `ReadFrom` without parsing the packet. -/
theorem pingHost_malformed_reply_counterexample :
    pingHost ⟨some (), some [8, 0], some (), some ([255], "203.0.113.5")⟩
      "10.0.0.2" 500 = true := rfl

/-- C5 (amended): for every host address and timeout, `pingHost`
returns false rather than raising a fault on any local failure or on
the absence of a reply — inability to open the raw ICMP socket
(privilege failure), marshal failure, send failure, or an errored or
timed-out read — so lack of privilege degrades every liveness result
to false instead of aborting the scan.  (A malformed reply arriving
before the deadline is not such a failure: the packet is never parsed
and the probe returns true; see the counterexample above.) -/
theorem pingHost_fail_false (env : ICMPEnv) (ip : String) (timeout : Nat)
    (h : env.listen = none ∨ env.marshal = none ∨ env.write = none ∨
      env.read = none) :
    pingHost env ip timeout = false := by
  obtain ⟨el, em, ew, er⟩ := env
  rcases h with h | h | h | h <;> dsimp only at h <;> subst h
  · rfl
  · cases el <;> rfl
  · cases el <;> cases em <;> rfl
  · cases el <;> cases em <;> cases ew <;> rfl

/-- C5 witness: with a failed raw-socket open (privilege failure) the
probe reports false even though a reply would be available. -/
theorem pingHost_fail_false_witness :
    pingHost ⟨none, some [8, 0], some (), some ([0], "10.0.0.9")⟩
      "10.0.0.1" 500 = false :=
  pingHost_fail_false ⟨none, some [8, 0], some (), some ([0], "10.0.0.9")⟩
    "10.0.0.1" 500 (Or.inl rfl)

/-- C10: when listener creation, marshal and write succeed, `pingHost`
returns true exactly when its single `ReadFrom` returns without error
before the read deadline, regardless of the received packet's
contents, type, or source address — any ICMP packet arriving at the
socket is counted as liveness of the probed host. -/
theorem pingHost_read_decides (env : ICMPEnv) (ip : String) (timeout : Nat)
    (hl : env.listen = some ()) (hm : ∃ b, env.marshal = some b)
    (hw : env.write = some ()) :
    pingHost env ip timeout = env.read.isSome := by
  obtain ⟨el, em, ew, er⟩ := env
  obtain ⟨b, hb⟩ := hm
  dsimp only at hl hw hb
  subst hl
  subst hw
  subst hb
  cases er <;> rfl

/-- C10 witness: an arbitrary packet from an unrelated source address
makes the probe of 10.0.0.1 return true. -/
theorem pingHost_read_decides_witness :
    pingHost ⟨some (), some [8, 0], some (), some ([99, 1, 2], "192.0.2.7")⟩
      "10.0.0.1" 500 = true :=
  pingHost_read_decides
    ⟨some (), some [8, 0], some (), some ([99, 1, 2], "192.0.2.7")⟩
    "10.0.0.1" 500 rfl ⟨[8, 0], rfl⟩ rfl
